import Mathlib

/-!
Shallow embedding of the PPWSA notification bot (`app.py`).

Strings are modelled as `List Char` (Python `str` indexes by code point, as
does `List Char`).  The two regular expressions of the source,
`INVOICE_PATTERN = P-([A-Z0-9]+)` and
`COST_PRICE_PATTERN = (\d{1,3}(?:,\d{3})*(?:\.\d+)?)\s*៛`,
are compiled by hand into deterministic matchers; `re.search` is modelled by
trying every start position from the left.  `\d` and `\s` are modelled by
their ASCII meaning (the notifications and all claims use ASCII digits and
spaces only).
-/

namespace PPWSA

/-- The sentinel value the source uses for a missed pattern. -/
def sentinel : List Char := "Pattern not found.".data

/-- The backquote character (code 96), used for inline-code rendering. -/
def bq : Char := Char.ofNat 96

/-- Character class `[A-Z0-9]` of `INVOICE_PATTERN`. -/
def isUpperAlnum (c : Char) : Bool := c.isUpper || c.isDigit

/-- `re.search`: try the matcher at position 0, 1, 2, ... and return the
first success (both our matchers fail on the empty suffix, so stopping at
the empty list is faithful). -/
def searchFrom (f : List Char → Option (List Char)) : List Char → Option (List Char)
  | [] => none
  | c :: rest =>
    match f (c :: rest) with
    | some r => some r
    | none => searchFrom f rest

/-- Matcher for `P-([A-Z0-9]+)` anchored at the head of the suffix.
Returns the captured group (the greedy run after `P-`). -/
def invoiceAt : List Char → Option (List Char)
  | 'P' :: '-' :: rest =>
    match rest.takeWhile isUpperAlnum with
    | [] => none
    | c :: cs => some (c :: cs)
  | _ => none

/-- `INVOICE_PATTERN.search(text)`, returning `group(1)`. -/
def invoiceSearch (s : List Char) : Option (List Char) := searchFrom invoiceAt s

/-- The full invoice-like token (`group(0)`) starting at position `i` of `s`,
if the pattern matches there. -/
def invTokenAt (s : List Char) (i : Nat) : Option (List Char) :=
  (invoiceAt (s.drop i)).map (fun cap => 'P' :: '-' :: cap)

/-- Greedy consumption of `(?:,\d{3})*`: returns the consumed characters and
the remaining suffix. -/
def eatGroups : List Char → List Char × List Char
  | c0 :: a :: b :: c :: rest =>
    if c0 = ',' ∧ a.isDigit ∧ b.isDigit ∧ c.isDigit then
      (c0 :: a :: b :: c :: (eatGroups rest).1, (eatGroups rest).2)
    else ([], c0 :: a :: b :: c :: rest)
  | l => ([], l)

/-- Greedy consumption of `(?:\.\d+)?`: returns the consumed characters and
the remaining suffix. -/
def eatDec : List Char → List Char × List Char
  | c0 :: c :: rest =>
    if c0 = '.' ∧ c.isDigit then
      (c0 :: c :: rest.takeWhile Char.isDigit, rest.dropWhile Char.isDigit)
    else ([], c0 :: c :: rest)
  | l => ([], l)

/-- ASCII `\s`. -/
def pySpace (c : Char) : Bool :=
  c == ' ' || c == '\t' || c == '\n' || c == '\r' || c.toNat == 11 || c.toNat == 12

/-- After the captured number: `\s*` then the riel sign. -/
def costTail (l : List Char) : Bool :=
  match l.dropWhile pySpace with
  | c :: _ => c == '៛'
  | [] => false

/-- Matcher for `(\d{1,3}(?:,\d{3})*(?:\.\d+)?)\s*៛` anchored at the head of
the suffix, returning the captured group.  A run of more than three leading
digits can never match (every backtracking continuation fails on a digit),
so the matcher is deterministic. -/
def costAt (s : List Char) : Option (List Char) :=
  if (s.takeWhile Char.isDigit).length = 0 then none
  else if 3 < (s.takeWhile Char.isDigit).length then none
  else if
      costTail (eatDec (eatGroups (s.drop (s.takeWhile Char.isDigit).length)).2).2 then
    some (s.takeWhile Char.isDigit ++
      (eatGroups (s.drop (s.takeWhile Char.isDigit).length)).1 ++
      (eatDec (eatGroups (s.drop (s.takeWhile Char.isDigit).length)).2).1)
  else none

/-- `COST_PRICE_PATTERN.search(text)`, returning `group(1)`. -/
def costSearch (s : List Char) : Option (List Char) := searchFrom costAt s

/-- `price_str_with_commas.replace(',', '')`. -/
def stripCommas (l : List Char) : List Char := l.filter (fun c => c != ',')

/-- The presenter's `is_pattern_found` test: `copy_content != "Pattern not found."`. -/
def foundOf (value : List Char) : Bool := !(value == sentinel)

/-- Step 2 of `handle_notification_message`: the invoice `(message, value)` pair. -/
def invoiceResult (t : List Char) : List Char × List Char :=
  match invoiceSearch t with
  | some v => ("Invoice Number".data, v)
  | none => ("Invoice Number".data, sentinel)

/-- Step 3 of `handle_notification_message`: the cost `(message, value)` pair. -/
def costResult (t : List Char) : List Char × List Char :=
  match costSearch t with
  | some v => ("Cost Price".data, stripCommas v)
  | none => ("Cost Price".data, sentinel)

/-- A Python `datetime`, with the invariants `datetime` itself enforces. -/
structure PyDateTime where
  year : Nat
  month : Nat
  day : Nat
  hour : Nat
  minute : Nat
  second : Nat
  year_pos : 1 ≤ year
  year_le : year ≤ 9999
  month_pos : 1 ≤ month
  month_le : month ≤ 12
  day_pos : 1 ≤ day
  day_le : day ≤ 31
  hour_le : hour ≤ 23
  minute_le : minute ≤ 59
  second_le : second ≤ 59

/-- The decimal digit character for `n < 10`. -/
def digitChar (n : Nat) : Char := Char.ofNat (48 + n)

/-- Unpadded decimal rendering (glibc `%Y`). -/
def natChars (n : Nat) : List Char :=
  if _h : n < 10 then [digitChar n]
  else natChars (n / 10) ++ [digitChar (n % 10)]
decreasing_by exact Nat.div_lt_self (by omega) (by omega)

/-- Two-digit zero-padded rendering (`%m`, `%d`, `%H`, `%M`, `%S`), for
values below 100. -/
def pad2 (n : Nat) : List Char := [digitChar (n / 10), digitChar (n % 10)]

/-- `dt.strftime("%Y-%m-%d %H:%M:%S")`. -/
def fmtDT (d : PyDateTime) : List Char :=
  natChars d.year ++ '-' :: pad2 d.month ++ '-' :: pad2 d.day ++
    ' ' :: pad2 d.hour ++ ':' :: pad2 d.minute ++ ':' :: pad2 d.second

/-- Step 1 of `handle_notification_message`: the date `(message, value)` pair,
from the forwarded-origin timestamp if present, else the received timestamp. -/
def dateResult (forwarded : Option PyDateTime) (received : PyDateTime) :
    List Char × List Char :=
  match forwarded with
  | some d => ("Original Message Date (Metadata)".data, fmtDT d)
  | none => ("Original Message Date (Fallback)".data, fmtDT received)

/-- An inbound Telegram message as `handle_notification_message` sees it. -/
structure Msg where
  text : Option (List Char)
  date : PyDateTime
  forwarded : Option PyDateTime

/-- One outbound reply: its rendered text and, when a button is attached,
the button's `callback_data`. -/
structure Reply where
  text : List Char
  button : Option (List Char)
deriving DecidableEq

/-- Python's substring test `pat in s`. -/
def containsSub (pat : List Char) : List Char → Bool
  | [] => pat.isEmpty
  | c :: rest => pat.isPrefixOf (c :: rest) || containsSub pat rest

/-- The presenter's loop body: render one `(display_text, copy_content)` pair,
attaching the copy button exactly when
`is_pattern_found or "(Fallback)" in display_text or "(Metadata)" in display_text`. -/
def mkReply (label value : List Char) : Reply :=
  { text := '*' :: '*' :: (label ++ ':' :: '*' :: '*' :: '\n' :: bq :: (value ++ [bq])),
    button :=
      if foundOf value || containsSub "(Fallback)".data label
          || containsSub "(Metadata)".data label then
        some ("copy_value|".data ++ value)
      else none }

/-- `handle_notification_message`: empty or absent text short-circuits;
otherwise the three replies are sent in order date, invoice, cost. -/
def handleNotification (m : Msg) : List Reply :=
  match m.text with
  | none => []
  | some t =>
    if t = [] then []
    else
      [mkReply (dateResult m.forwarded m.date).1 (dateResult m.forwarded m.date).2,
       mkReply (invoiceResult t).1 (invoiceResult t).2,
       mkReply (costResult t).1 (costResult t).2]

/-- `query.data.split('|', 1)`, first half: the part before the first pipe and
the rest, or `none` when there is no pipe. -/
def splitFirst : List Char → Option (List Char × List Char)
  | [] => none
  | c :: rest =>
    if c = '|' then some ([], rest)
    else
      match splitFirst rest with
      | some p => some (c :: p.1, p.2)
      | none => none

/-- `query.data.split('|', 1)`. -/
def pySplit1 (s : List Char) : List (List Char) :=
  match splitFirst s with
  | some p => [p.1, p.2]
  | none => [s]

/-- The lazy scan of `\*\*(.*?)\*\*` after the opening stars: position of the
first two consecutive stars, provided no newline comes before it (`.` does
not match a newline). -/
def findClose : List Char → Option Nat
  | c :: d :: rest =>
    if c = '*' ∧ d = '*' then some 0
    else if c = '\n' then none
    else (findClose (d :: rest)).map (· + 1)
  | _ => none

/-- `re.match(r'(\*\*.*?\*\*)', original_text)`: the leading bold header of
the message text, or `[]` when the pattern does not match
(`header_match.group(1) if header_match else ""`). -/
def headerOf (t : List Char) : List Char :=
  match t with
  | c :: d :: rest =>
    if c = '*' ∧ d = '*' then
      match findClose rest with
      | some j => c :: d :: rest.take (j + 2)
      | none => []
    else []
  | _ => []

/-- The outbound actions `button_handler` can perform. -/
inductive BotEffect where
  | answer : List Char → BotEffect
  | editMsg : List Char → Option (List Char) → BotEffect
  | sendMsg : List Char → BotEffect
  | logWarn : BotEffect
deriving DecidableEq

/-- `"✅ **Extracted Value**"`. -/
def confirmLine : List Char := "✅ **Extracted Value**".data

/-- `button_handler`.  `editFails` says whether `edit_message_text` raises
(message too old, already edited, transport error...).  The result is the
ordered list of performed effects plus a flag that is `true` when the
handler itself raises an uncaught exception (`data[1]` on a payload without
a pipe). -/
def buttonHandler (payload msgText : List Char) (editFails : Bool) :
    List BotEffect × Bool :=
  match pySplit1 payload with
  | [a, v] =>
    if a = "copy_value".data then
      let header := headerOf msgText
      let newText := header ++ '\n' :: bq :: (v ++ bq :: '\n' :: '\n' :: confirmLine)
      if editFails then
        ([.answer "Value is ready to copy!".data, .logWarn,
          .sendMsg (confirmLine ++ '\n' :: bq :: (v ++ [bq]))], false)
      else
        ([.answer "Value is ready to copy!".data, .editMsg newText none], false)
    else ([.answer "Value is ready to copy!".data], false)
  | _ => ([.answer "Value is ready to copy!".data], true)

/-- Number of confirmation messages (edits or fresh sends) in an effect list. -/
def countConfirm (effs : List BotEffect) : Nat :=
  effs.countP fun e =>
    match e with
    | .editMsg _ _ => true
    | .sendMsg _ => true
    | _ => false

/-- The 19-character shape `YYYY-MM-DD HH:MM:SS`. -/
def isDateFormat : List Char → Bool
  | [y1, y2, y3, y4, s1, m1, m2, s2, d1, d2, s3, h1, h2, s4, n1, n2, s5, c1, c2] =>
    y1.isDigit && y2.isDigit && y3.isDigit && y4.isDigit &&
    s1 == '-' && m1.isDigit && m2.isDigit && s2 == '-' &&
    d1.isDigit && d2.isDigit && s3 == ' ' &&
    h1.isDigit && h2.isDigit && s4 == ':' &&
    n1.isDigit && n2.isDigit && s5 == ':' &&
    c1.isDigit && c2.isDigit
  | _ => false

/-! ### The position scan -/

theorem searchFrom_eq_none_iff (f : List Char → Option (List Char)) (hf : f [] = none)
    (s : List Char) : searchFrom f s = none ↔ ∀ i, f (s.drop i) = none := by
  induction s with
  | nil =>
    constructor
    · intro _ i; simpa using hf
    · intro _; rfl
  | cons c rest ih =>
    constructor
    · intro h i
      cases hfc : f (c :: rest) with
      | some r => rw [searchFrom, hfc] at h; exact absurd h (by simp)
      | none =>
        rw [searchFrom, hfc] at h
        cases i with
        | zero => simpa using hfc
        | succ j => simpa using (ih.mp h) j
    · intro h
      have h0 : f (c :: rest) = none := by simpa using h 0
      rw [searchFrom, h0]
      exact ih.mpr fun j => by simpa using h (j + 1)

theorem searchFrom_eq_some_of (f : List Char → Option (List Char)) (hf : f [] = none)
    (s : List Char) (i : Nat) (r : List Char)
    (hi : f (s.drop i) = some r) (hmin : ∀ j, j < i → f (s.drop j) = none) :
    searchFrom f s = some r := by
  induction s generalizing i with
  | nil => rw [List.drop_nil] at hi; rw [hf] at hi; exact absurd hi (by simp)
  | cons c rest ih =>
    cases i with
    | zero =>
      rw [List.drop_zero] at hi
      rw [searchFrom, hi]
    | succ j =>
      have h0 : f (c :: rest) = none := by simpa using hmin 0 (Nat.succ_pos j)
      rw [searchFrom, h0]
      exact ih j (by simpa using hi) fun k hk => by
        simpa using hmin (k + 1) (by omega)

theorem searchFrom_eq_some_imp (f : List Char → Option (List Char)) (s r : List Char)
    (h : searchFrom f s = some r) : ∃ i, f (s.drop i) = some r := by
  induction s with
  | nil => exact absurd h (by simp [searchFrom])
  | cons c rest ih =>
    rw [searchFrom] at h
    cases hfc : f (c :: rest) with
    | some x =>
      rw [hfc] at h
      exact ⟨0, by simpa using hfc.trans h⟩
    | none =>
      rw [hfc] at h
      obtain ⟨i, hi⟩ := ih h
      exact ⟨i + 1, by simpa using hi⟩

/-! ### Contents of captured values -/

theorem invoiceAt_chars {s cap : List Char} (h : invoiceAt s = some cap) :
    ∀ c ∈ cap, isUpperAlnum c = true := by
  intro c hc
  unfold invoiceAt at h
  split at h
  · split at h
    · exact absurd h (by simp)
    · next heq =>
        injection h with h'
        subst h'
        exact List.mem_takeWhile_imp (heq ▸ hc)
  · exact absurd h (by simp)

theorem invoice_cap_ne_sentinel {s cap : List Char} (h : invoiceAt s = some cap) :
    cap ≠ sentinel := by
  intro he
  have := invoiceAt_chars h 'a' (by rw [he]; decide)
  exact absurd this (by decide)

theorem foundOf_eq_true_iff (v : List Char) : foundOf v = true ↔ v ≠ sentinel := by
  simp [foundOf]

theorem eatGroups_chars (l : List Char) :
    ∀ c ∈ (eatGroups l).1, c = ',' ∨ c.isDigit = true := by
  induction l using eatGroups.induct with
  | case1 c0 a b c rest hd ih =>
    intro x hx
    rw [eatGroups, if_pos hd] at hx
    simp only [List.mem_cons] at hx
    rcases hx with h | h | h | h | h
    · exact Or.inl (h.trans hd.1)
    · exact Or.inr (h ▸ hd.2.1)
    · exact Or.inr (h ▸ hd.2.2.1)
    · exact Or.inr (h ▸ hd.2.2.2)
    · exact ih x h
  | case2 c0 a b c rest hd =>
    intro x hx
    rw [eatGroups, if_neg hd] at hx
    exact absurd hx (by simp)
  | case3 l hl =>
    intro x hx
    rw [eatGroups.eq_def] at hx
    split at hx
    · exact absurd rfl (hl _ _ _ _ _)
    · exact absurd hx (by simp)

theorem eatDec_chars (l : List Char) :
    (eatDec l).1 = [] ∨
      ∃ tl, (eatDec l).1 = '.' :: tl ∧ ∀ c ∈ tl, c.isDigit = true := by
  match l with
  | [] => exact Or.inl rfl
  | [c] => exact Or.inl rfl
  | c0 :: c :: rest =>
    by_cases hd : c0 = '.' ∧ c.isDigit
    · refine Or.inr ⟨c :: rest.takeWhile Char.isDigit, ?_, ?_⟩
      · rw [eatDec, if_pos hd, hd.1]
      · intro x hx
        rcases List.mem_cons.mp hx with h | h
        · exact h ▸ hd.2
        · exact List.mem_takeWhile_imp h
    · left
      rw [eatDec, if_neg hd]

theorem costAt_decomp {s cap : List Char} (h : costAt s = some cap) :
    ∃ ds gs dec, cap = ds ++ gs ++ dec ∧
      (∀ c ∈ ds, c.isDigit = true) ∧
      (∀ c ∈ gs, c = ',' ∨ c.isDigit = true) ∧
      (dec = [] ∨ ∃ tl, dec = '.' :: tl ∧ ∀ c ∈ tl, c.isDigit = true) := by
  unfold costAt at h
  split_ifs at h
  injection h with h'
  refine ⟨s.takeWhile Char.isDigit,
    (eatGroups (s.drop (s.takeWhile Char.isDigit).length)).1,
    (eatDec (eatGroups (s.drop (s.takeWhile Char.isDigit).length)).2).1,
    h'.symm, ?_, ?_, ?_⟩
  · intro c hc; exact List.mem_takeWhile_imp hc
  · exact eatGroups_chars _
  · exact eatDec_chars _

theorem cost_val_chars {s cap : List Char} (h : costAt s = some cap) :
    ∀ c ∈ stripCommas cap, (c.isDigit || c == '.') = true := by
  obtain ⟨ds, gs, dec, hcap, hds, hgs, hdec⟩ := costAt_decomp h
  subst hcap
  intro c hc
  rw [stripCommas] at hc
  have hmem := (List.mem_filter.mp hc).1
  have hne : c ≠ ',' := by simpa using (List.mem_filter.mp hc).2
  simp only [List.append_assoc, List.mem_append] at hmem
  rcases hmem with h1 | h1 | h1
  · simp [hds c h1]
  · rcases hgs c h1 with h2 | h2
    · exact absurd h2 hne
    · simp [h2]
  · rcases hdec with rfl | ⟨tl, rfl, htl⟩
    · exact absurd h1 (by simp)
    · rcases List.mem_cons.mp h1 with rfl | h2
      · simp
      · simp [htl c h2]

theorem cost_val_dot_count {s cap : List Char} (h : costAt s = some cap) :
    (stripCommas cap).count '.' ≤ 1 := by
  obtain ⟨ds, gs, dec, hcap, hds, hgs, hdec⟩ := costAt_decomp h
  subst hcap
  rw [stripCommas, List.filter_append, List.filter_append, List.count_append,
    List.count_append]
  have c1 : (ds.filter (fun c => c != ',')).count '.' = 0 := by
    rw [List.count_eq_zero]
    intro hmem
    have := hds '.' (List.mem_filter.mp hmem).1
    exact absurd this (by decide)
  have c2 : (gs.filter (fun c => c != ',')).count '.' = 0 := by
    rw [List.count_eq_zero]
    intro hmem
    rcases hgs '.' (List.mem_filter.mp hmem).1 with h2 | h2
    · exact absurd h2 (by decide)
    · exact absurd h2 (by decide)
  have c3 : (dec.filter (fun c => c != ',')).count '.' ≤ 1 := by
    rcases hdec with rfl | ⟨tl, rfl, htl⟩
    · simp
    · have hfe : tl.filter (fun c => c != ',') = tl := by
        rw [List.filter_eq_self]
        intro c hc
        have := htl c hc
        simp only [bne_iff_ne, ne_eq]
        intro he
        exact absurd (he ▸ this) (by decide)
      have hstep : ('.' :: tl).filter (fun c => c != ',') = '.' :: tl := by
        rw [List.filter_cons_of_pos (by decide), hfe]
      rw [hstep, List.count_cons]
      have h0 : tl.count '.' = 0 := by
        rw [List.count_eq_zero]
        intro hmem
        exact absurd (htl '.' hmem) (by decide)
      simp [h0]
  omega

theorem cost_val_ne_sentinel {s cap : List Char} (h : costAt s = some cap) :
    stripCommas cap ≠ sentinel := by
  intro he
  have := cost_val_chars h 'P' (by rw [he]; decide)
  exact absurd this (by decide)

/-! ### Payload splitting -/

theorem splitFirst_append_of (pre v : List Char) (hpre : '|' ∉ pre) :
    splitFirst (pre ++ '|' :: v) = some (pre, v) := by
  induction pre with
  | nil => simp [splitFirst]
  | cons p ps ih =>
    have hp : p ≠ '|' := fun he => hpre (he ▸ List.mem_cons_self _ _)
    have hps : '|' ∉ ps := fun hm => hpre (List.mem_cons_of_mem _ hm)
    simp [splitFirst, hp, ih hps]

theorem splitFirst_eq_none (s : List Char) (h : '|' ∉ s) : splitFirst s = none := by
  induction s with
  | nil => rfl
  | cons c rest ih =>
    have hc : c ≠ '|' := fun he => h (he ▸ List.mem_cons_self _ _)
    simp [splitFirst, hc, ih fun hm => h (List.mem_cons_of_mem _ hm)]

/-! ### Header recovery -/

theorem findClose_decomp (l : List Char) : ∀ j, findClose l = some j →
    ∃ mid rest, l = mid ++ '*' :: '*' :: rest ∧ '\n' ∉ mid := by
  induction l with
  | nil => intro j h; simp [findClose] at h
  | cons c rest ih =>
    intro j h
    cases rest with
    | nil => simp [findClose] at h
    | cons d rest2 =>
      rw [findClose] at h
      by_cases hsd : c = '*' ∧ d = '*'
      · exact ⟨[], rest2, by simp [hsd.1, hsd.2], by simp⟩
      · rw [if_neg hsd] at h
        by_cases hn : c = '\n'
        · rw [if_pos hn] at h; exact absurd h (by simp)
        · rw [if_neg hn] at h
          cases hf : findClose (d :: rest2) with
          | none => rw [hf] at h; exact absurd h (by simp)
          | some j' =>
            obtain ⟨mid, rest3, hEq, hNo⟩ := ih j' hf
            refine ⟨c :: mid, rest3, by simp [hEq], ?_⟩
            simp only [List.mem_cons, not_or]
            exact ⟨fun he => hn he.symm, hNo⟩

/-! ### Substring containment -/

theorem containsSub_iff (pat l : List Char) :
    containsSub pat l = true ↔ List.IsInfix pat l := by
  induction l with
  | nil => simp [containsSub, List.isEmpty_iff]
  | cons c rest ih =>
    rw [containsSub, Bool.or_eq_true, ih, List.infix_cons_iff,
      List.isPrefixOf_iff_prefix]

/-! ### Date formatting -/

theorem digitChar_isDigit {n : Nat} (h : n < 10) : (digitChar n).isDigit = true := by
  interval_cases n <;> decide

theorem natChars_four {y : Nat} (h1 : 1000 ≤ y) (h2 : y ≤ 9999) :
    natChars y = [digitChar (y / 1000), digitChar (y / 100 % 10),
      digitChar (y / 10 % 10), digitChar (y % 10)] := by
  have e4 : natChars (y / 1000) = [digitChar (y / 1000)] := by
    rw [natChars, dif_pos (by omega)]
  have e3 : natChars (y / 100) = natChars (y / 1000) ++ [digitChar (y / 100 % 10)] := by
    rw [natChars, dif_neg (by omega)]
    have : y / 100 / 10 = y / 1000 := by omega
    rw [this]
  have e2 : natChars (y / 10) = natChars (y / 100) ++ [digitChar (y / 10 % 10)] := by
    rw [natChars, dif_neg (by omega)]
    have : y / 10 / 10 = y / 100 := by omega
    rw [this]
  have e1 : natChars y = natChars (y / 10) ++ [digitChar (y % 10)] := by
    rw [natChars, dif_neg (by omega)]
  rw [e1, e2, e3, e4]
  simp

theorem isDateFormat_fmtDT {d : PyDateTime} (h : 1000 ≤ d.year) :
    isDateFormat (fmtDT d) = true := by
  have hy := d.year_le
  have hm := d.month_le
  have hd := d.day_le
  have hh := d.hour_le
  have hn := d.minute_le
  have hs := d.second_le
  rw [fmtDT, natChars_four h hy]
  simp only [pad2, List.cons_append, List.nil_append, List.append_assoc]
  rw [isDateFormat]
  simp only [Bool.and_eq_true]
  refine ⟨⟨⟨⟨⟨⟨⟨⟨⟨⟨⟨⟨⟨⟨⟨⟨⟨⟨?_, ?_⟩, ?_⟩, ?_⟩, ?_⟩, ?_⟩, ?_⟩, ?_⟩, ?_⟩, ?_⟩,
    ?_⟩, ?_⟩, ?_⟩, ?_⟩, ?_⟩, ?_⟩, ?_⟩, ?_⟩, ?_⟩ <;>
    first
      | rfl
      | exact digitChar_isDigit (by omega)

theorem fmtDT_ne_sentinel {d : PyDateTime} (h : 1000 ≤ d.year) :
    fmtDT d ≠ sentinel := by
  intro he
  have := isDateFormat_fmtDT h
  rw [he] at this
  exact absurd this (by decide)

/-! ### Shared result lemmas -/

theorem invoiceResult_eq_of (s : List Char) (i : Nat) (cap : List Char)
    (hi : invoiceAt (s.drop i) = some cap)
    (hmin : ∀ j, j < i → invoiceAt (s.drop j) = none) :
    invoiceResult s = ("Invoice Number".data, cap) := by
  have hs : invoiceSearch s = some cap :=
    searchFrom_eq_some_of invoiceAt rfl s i cap hi hmin
  rw [invoiceResult, hs]

theorem costResult_eq_of (s : List Char) (i : Nat) (cap : List Char)
    (hi : costAt (s.drop i) = some cap)
    (hmin : ∀ j, j < i → costAt (s.drop j) = none) :
    costResult s = ("Cost Price".data, stripCommas cap) := by
  have hs : costSearch s = some cap :=
    searchFrom_eq_some_of costAt rfl s i cap hi hmin
  rw [costResult, hs]

/-! ### Claim theorems -/

/-- C1: for every input text, the invoice result takes the first (leftmost)
substring matching `P-[A-Z0-9]+`; its value is the captured part after the
hyphen with `found = true`; if no position matches, `found = false` with
the sentinel value.  In particular, for a text in which some position
carries the invoice token `P-ABC123` and every matching position carries
exactly that token, the value is `ABC123` with `found = true`. -/
theorem C1_invoice_extraction (s : List Char) :
    ((∀ i, invoiceAt (s.drop i) = none) →
      invoiceResult s = ("Invoice Number".data, sentinel) ∧
        foundOf (invoiceResult s).2 = false) ∧
    (∀ i cap, invoiceAt (s.drop i) = some cap →
      (∀ j, j < i → invoiceAt (s.drop j) = none) →
      invoiceResult s = ("Invoice Number".data, cap) ∧
        foundOf (invoiceResult s).2 = true) ∧
    (∀ i₀, invTokenAt s i₀ = some "P-ABC123".data →
      (∀ i, i < s.length →
        invTokenAt s i = none ∨ invTokenAt s i = some "P-ABC123".data) →
      invoiceResult s = ("Invoice Number".data, "ABC123".data)) := by
  refine ⟨?_, ?_, ?_⟩
  · intro h
    have hs : invoiceSearch s = none :=
      (searchFrom_eq_none_iff invoiceAt rfl s).mpr h
    rw [invoiceResult, hs]
    exact ⟨rfl, by simp [foundOf]⟩
  · intro i cap hi hmin
    have he := invoiceResult_eq_of s i cap hi hmin
    refine ⟨he, ?_⟩
    rw [he]
    exact (foundOf_eq_true_iff cap).mpr (invoice_cap_ne_sentinel hi)
  · intro i₀ h0 hall
    have h0' : ∃ cap, invoiceAt (s.drop i₀) = some cap := by
      rw [invTokenAt] at h0
      cases hA : invoiceAt (s.drop i₀) with
      | none => rw [hA] at h0; exact absurd h0 (by simp)
      | some cap => exact ⟨cap, rfl⟩
    have hex : ∃ i, (invoiceAt (s.drop i)).isSome = true :=
      ⟨i₀, by obtain ⟨cap, hc⟩ := h0'; simp [hc]⟩
    obtain ⟨cap, hcap⟩ := Option.isSome_iff_exists.mp (Nat.find_spec hex)
    have hmin : ∀ j, j < Nat.find hex → invoiceAt (s.drop j) = none := fun j hj => by
      have hns := Nat.find_min hex hj
      cases hA : invoiceAt (s.drop j) with
      | none => rfl
      | some c => rw [hA] at hns; simp at hns
    have hk_le : Nat.find hex ≤ i₀ :=
      Nat.find_min' hex (by obtain ⟨c0, hc⟩ := h0'; simp [hc])
    have hk_lt : Nat.find hex < s.length := by
      by_contra hge
      rw [List.drop_eq_nil_of_le (by omega)] at hcap
      exact absurd hcap (by simp [invoiceAt])
    have htok : invTokenAt s (Nat.find hex) = some ('P' :: '-' :: cap) := by
      simp [invTokenAt, hcap]
    have hcap' : cap = "ABC123".data := by
      rcases hall (Nat.find hex) hk_lt with hcon | hsome
      · rw [htok] at hcon; exact absurd hcon (by simp)
      · rw [htok] at hsome
        have h1 := Option.some.inj hsome
        exact congrArg List.tail (congrArg List.tail h1)
    rw [invoiceResult_eq_of s (Nat.find hex) cap hcap hmin, hcap']

/-- C1 witness: in `"Pay P-ABC123 now"` the token `P-ABC123` sits at
position 4 and every matching position carries exactly that token, so the
invoice value is `ABC123`. -/
theorem C1_invoice_extraction_witness :
    invTokenAt "Pay P-ABC123 now".data 4 = some "P-ABC123".data ∧
    invoiceResult "Pay P-ABC123 now".data = ("Invoice Number".data, "ABC123".data) :=
  ⟨by decide,
   (C1_invoice_extraction _).2.2 4 (by decide) (by decide)⟩

/-- C2 (amended): for every input text, the cost result takes the first
(leftmost) substring matching the grouped-thousands-number-then-riel-sign
pattern, with all commas stripped from the captured number and
`found = true`; if no position matches, `found = false` with the sentinel
value.  In particular a text whose leftmost match captures `75,800` yields
`75800`, and one whose leftmost match captures `1,234.50` yields `1234.50`. -/
theorem C2_cost_extraction (s : List Char) :
    ((∀ i, costAt (s.drop i) = none) →
      costResult s = ("Cost Price".data, sentinel) ∧
        foundOf (costResult s).2 = false) ∧
    (∀ i cap, costAt (s.drop i) = some cap →
      (∀ j, j < i → costAt (s.drop j) = none) →
      costResult s = ("Cost Price".data, stripCommas cap) ∧
        foundOf (costResult s).2 = true) ∧
    (∀ i, costAt (s.drop i) = some "75,800".data →
      (∀ j, j < i → costAt (s.drop j) = none) →
      costResult s = ("Cost Price".data, "75800".data)) ∧
    (∀ i, costAt (s.drop i) = some "1,234.50".data →
      (∀ j, j < i → costAt (s.drop j) = none) →
      costResult s = ("Cost Price".data, "1234.50".data)) := by
  refine ⟨?_, ?_, ?_, ?_⟩
  · intro h
    have hs : costSearch s = none :=
      (searchFrom_eq_none_iff costAt rfl s).mpr h
    rw [costResult, hs]
    exact ⟨rfl, by simp [foundOf]⟩
  · intro i cap hi hmin
    have he := costResult_eq_of s i cap hi hmin
    refine ⟨he, ?_⟩
    rw [he]
    exact (foundOf_eq_true_iff _).mpr (cost_val_ne_sentinel hi)
  · intro i hi hmin
    have he := costResult_eq_of s i _ hi hmin
    rw [he]
    rfl
  · intro i hi hmin
    have he := costResult_eq_of s i _ hi hmin
    rw [he]
    rfl

/-- C2 counterexample to the claim as stated: `"175,800 ៛"` contains the
substring `"75,800 ៛"`, yet the extracted value is `175800`, not `75800`
(the leftmost match starts at the `1`). -/
theorem C2_cost_counterexample :
    costResult "175,800 ៛".data = ("Cost Price".data, "175800".data) ∧
    "175,800 ៛".data = '1' :: "75,800 ៛".data ∧
    ("175800".data : List Char) ≠ "75800".data := by
  refine ⟨by decide, by decide, by decide⟩

/-- C2 witness: on `"75,800 ៛"` itself the leftmost match is at position 0
and captures `75,800`, so the value is `75800`. -/
theorem C2_cost_extraction_witness :
    costAt (List.drop 0 "75,800 ៛".data) = some "75,800".data ∧
    costResult "75,800 ៛".data = ("Cost Price".data, "75800".data) :=
  ⟨by decide,
   (C2_cost_extraction _).2.2.1 0 (by decide) fun j hj => absurd hj (by omega)⟩

/-- A concrete valid datetime, used by the witnesses. -/
def dt0 : PyDateTime where
  year := 2024
  month := 5
  day := 17
  hour := 3
  minute := 4
  second := 5
  year_pos := by omega
  year_le := by omega
  month_pos := by omega
  month_le := by omega
  day_pos := by omega
  day_le := by omega
  hour_le := by omega
  minute_le := by omega
  second_le := by omega

/-- C3: if the forwarded-origin timestamp is present the date label is
`Original Message Date (Metadata)` and the value is that timestamp's
rendering; otherwise the label is `Original Message Date (Fallback)` and
the value renders the received timestamp; the value always has shape
`YYYY-MM-DD HH:MM:SS` and is never the sentinel, so the date field is
always found (year at least 1000, as all Telegram timestamps are). -/
theorem C3_date_extraction (fw : Option PyDateTime) (rcv : PyDateTime)
    (h : 1000 ≤ (fw.getD rcv).year) :
    (∀ d, fw = some d →
      (dateResult fw rcv).1 = "Original Message Date (Metadata)".data ∧
        (dateResult fw rcv).2 = fmtDT d) ∧
    (fw = none →
      (dateResult fw rcv).1 = "Original Message Date (Fallback)".data ∧
        (dateResult fw rcv).2 = fmtDT rcv) ∧
    isDateFormat (dateResult fw rcv).2 = true ∧
    foundOf (dateResult fw rcv).2 = true := by
  cases fw with
  | none =>
    rw [Option.getD_none] at h
    refine ⟨?_, ?_, ?_, ?_⟩
    · intro d hd; cases hd
    · intro _; exact ⟨rfl, rfl⟩
    · exact isDateFormat_fmtDT h
    · exact (foundOf_eq_true_iff _).mpr (fmtDT_ne_sentinel h)
  | some d0 =>
    rw [Option.getD_some] at h
    refine ⟨?_, ?_, ?_, ?_⟩
    · intro d hd
      injection hd with h'
      subst h'
      exact ⟨rfl, rfl⟩
    · intro hn; cases hn
    · exact isDateFormat_fmtDT h
    · exact (foundOf_eq_true_iff _).mpr (fmtDT_ne_sentinel h)

/-- C3 witness: with a forwarded timestamp present the rendered date has the
required shape. -/
theorem C3_date_extraction_witness :
    1000 ≤ ((some dt0).getD dt0).year ∧
    isDateFormat (dateResult (some dt0) dt0).2 = true :=
  ⟨by decide, (C3_date_extraction (some dt0) dt0 (by decide)).2.2.1⟩

/-- Number of interactive buttons attached to a reply (the keyboard holds at
most one). -/
def countButtons (r : Reply) : Nat :=
  match r.button with
  | some _ => 1
  | none => 0

/-- C4: a reply carries the copy action exactly when the displayed value is
not the sentinel or the header contains `(Fallback)` or `(Metadata)`; hence
the date reply always has exactly one button, and the invoice and cost
replies have exactly one button when found and none otherwise; the
notification handler emits exactly these three replies. -/
theorem C4_button_rule :
    (∀ label value, ((mkReply label value).button.isSome = true ↔
      (value ≠ sentinel ∨ List.IsInfix "(Fallback)".data label ∨
        List.IsInfix "(Metadata)".data label))) ∧
    (∀ fw rcv, countButtons (mkReply (dateResult fw rcv).1 (dateResult fw rcv).2) = 1) ∧
    (∀ t, countButtons (mkReply (invoiceResult t).1 (invoiceResult t).2) =
      if (invoiceSearch t).isSome then 1 else 0) ∧
    (∀ t, countButtons (mkReply (costResult t).1 (costResult t).2) =
      if (costSearch t).isSome then 1 else 0) ∧
    (∀ m t, m.text = some t → t ≠ [] →
      handleNotification m =
        [mkReply (dateResult m.forwarded m.date).1 (dateResult m.forwarded m.date).2,
         mkReply (invoiceResult t).1 (invoiceResult t).2,
         mkReply (costResult t).1 (costResult t).2]) := by
  have hb : ∀ label value, (mkReply label value).button.isSome =
      (foundOf value || containsSub "(Fallback)".data label ||
        containsSub "(Metadata)".data label) := by
    intro label value
    rw [mkReply]
    split
    · next hc => simp [hc]
    · next hc => simp [Bool.not_eq_true] at hc; simp [hc]
  refine ⟨?_, ?_, ?_, ?_, ?_⟩
  · intro label value
    rw [hb]
    simp only [Bool.or_eq_true, foundOf_eq_true_iff, containsSub_iff]
    tauto
  · intro fw rcv
    cases fw with
    | none =>
      have : containsSub "(Fallback)".data
          "Original Message Date (Fallback)".data = true := by decide
      simp [dateResult, countButtons, mkReply, this]
    | some d =>
      have : containsSub "(Metadata)".data
          "Original Message Date (Metadata)".data = true := by decide
      simp [dateResult, countButtons, mkReply, this]
  · intro t
    cases hs : invoiceSearch t with
    | none =>
      rw [invoiceResult, hs]
      simp [countButtons, mkReply, foundOf]
      decide
    | some v =>
      obtain ⟨i, hi⟩ := searchFrom_eq_some_imp invoiceAt t v hs
      have hne := invoice_cap_ne_sentinel hi
      rw [invoiceResult, hs]
      simp [countButtons, mkReply, (foundOf_eq_true_iff v).mpr hne]
  · intro t
    cases hs : costSearch t with
    | none =>
      rw [costResult, hs]
      simp [countButtons, mkReply, foundOf]
      decide
    | some v =>
      obtain ⟨i, hi⟩ := searchFrom_eq_some_imp costAt t v hs
      have hne := cost_val_ne_sentinel hi
      rw [costResult, hs]
      simp [countButtons, mkReply, (foundOf_eq_true_iff _).mpr hne]
  · intro m t ht htne
    rw [handleNotification, ht]
    simp [htne]

/-- C4 witness: a concrete notification with one invoice token and no price
yields a date reply with a button, an invoice reply with a button, and a
cost reply without one. -/
theorem C4_button_rule_witness :
    (Msg.mk (some "P-A7".data) dt0 none).text = some "P-A7".data ∧
    ("P-A7".data : List Char) ≠ [] ∧
    handleNotification (Msg.mk (some "P-A7".data) dt0 none) =
      [mkReply (dateResult none dt0).1 (dateResult none dt0).2,
       mkReply (invoiceResult "P-A7".data).1 (invoiceResult "P-A7".data).2,
       mkReply (costResult "P-A7".data).1 (costResult "P-A7".data).2] :=
  ⟨rfl, by decide,
   C4_button_rule.2.2.2.2 (Msg.mk (some "P-A7".data) dt0 none) _ rfl (by decide)⟩

/-- C9: an inbound message with absent or empty text produces no replies at
all. -/
theorem C9_empty_short_circuit (m : Msg) (h : m.text = none ∨ m.text = some []) :
    handleNotification m = [] := by
  rcases h with h | h
  · rw [handleNotification, h]
  · rw [handleNotification, h]
    simp

/-- C9 witness. -/
theorem C9_empty_short_circuit_witness :
    (Msg.mk none dt0 none).text = none ∧
    handleNotification (Msg.mk none dt0 none) = [] :=
  ⟨rfl, C9_empty_short_circuit _ (Or.inl rfl)⟩

/-- C10: successfully extracted invoice values consist only of uppercase
Latin letters and digits, cost values only of digits and at most one
decimal point, so neither can equal the sentinel, and the presenter's
`value` is not the sentinel test coincides exactly with the extraction
having found a match. -/
theorem C10_sentinel_disjoint :
    (∀ t cap, invoiceSearch t = some cap →
      (∀ c ∈ cap, isUpperAlnum c = true) ∧ cap ≠ sentinel) ∧
    (∀ t cap, costSearch t = some cap →
      (∀ c ∈ stripCommas cap, (c.isDigit || c == '.') = true) ∧
      (stripCommas cap).count '.' ≤ 1 ∧ stripCommas cap ≠ sentinel) ∧
    (∀ t, foundOf (invoiceResult t).2 = (invoiceSearch t).isSome) ∧
    (∀ t, foundOf (costResult t).2 = (costSearch t).isSome) := by
  refine ⟨?_, ?_, ?_, ?_⟩
  · intro t cap hs
    obtain ⟨i, hi⟩ := searchFrom_eq_some_imp invoiceAt t cap hs
    exact ⟨invoiceAt_chars hi, invoice_cap_ne_sentinel hi⟩
  · intro t cap hs
    obtain ⟨i, hi⟩ := searchFrom_eq_some_imp costAt t cap hs
    exact ⟨cost_val_chars hi, cost_val_dot_count hi, cost_val_ne_sentinel hi⟩
  · intro t
    cases hs : invoiceSearch t with
    | none => rw [invoiceResult, hs]; simp [foundOf]
    | some v =>
      obtain ⟨i, hi⟩ := searchFrom_eq_some_imp invoiceAt t v hs
      rw [invoiceResult, hs]
      simpa using (foundOf_eq_true_iff v).mpr (invoice_cap_ne_sentinel hi)
  · intro t
    cases hs : costSearch t with
    | none => rw [costResult, hs]; simp [foundOf]
    | some v =>
      obtain ⟨i, hi⟩ := searchFrom_eq_some_imp costAt t v hs
      rw [costResult, hs]
      simpa using (foundOf_eq_true_iff _).mpr (cost_val_ne_sentinel hi)

/-- C10 witness: the extracted invoice value `A7` is made of uppercase
letters and digits and differs from the sentinel. -/
theorem C10_sentinel_disjoint_witness :
    invoiceSearch "P-A7".data = some "A7".data ∧
    ("A7".data : List Char) ≠ sentinel :=
  ⟨by decide, (C10_sentinel_disjoint.1 "P-A7".data "A7".data (by decide)).2⟩

/-- C5 (amended): tapping with payload `copy_value|XY9` on a message whose
current text begins with `**Invoice Number:**` rewrites the message in
place to exactly `**Invoice Number:**\n`+backtick+`XY9`+backtick+
`\n\n✅ **Extracted Value**` — header line, value as inline code, blank
line, then the confirmation line, which the source renders in bold — and
removes the button; when no bold-header pattern matches at the start of
the current text, the empty header is used. -/
theorem C5_ack_edit_composition :
    (∀ tail : List Char,
      buttonHandler "copy_value|XY9".data ("**Invoice Number:**".data ++ tail) false =
        ([.answer "Value is ready to copy!".data,
          .editMsg "**Invoice Number:**\n`XY9`\n\n✅ **Extracted Value**".data none],
         false)) ∧
    (∀ t : List Char,
      (¬ ∃ mid rest, t = '*' :: '*' :: (mid ++ '*' :: '*' :: rest) ∧ '\n' ∉ mid) →
      headerOf t = []) := by
  constructor
  · intro tail
    rfl
  · intro t hno
    by_contra hne
    cases t with
    | nil => exact hne rfl
    | cons c rest =>
      cases rest with
      | nil => exact hne rfl
      | cons d rest2 =>
        rw [headerOf] at hne
        by_cases hsd : c = '*' ∧ d = '*'
        · rw [if_pos hsd] at hne
          cases hf : findClose rest2 with
          | none => rw [hf] at hne; exact hne rfl
          | some j =>
            obtain ⟨mid, rest3, hEq, hNo⟩ := findClose_decomp rest2 j hf
            exact hno ⟨mid, rest3, by rw [hsd.1, hsd.2, hEq], hNo⟩
        · rw [if_neg hsd] at hne
          exact hne rfl

/-- C5 counterexample to the claim's exact edited text: the code appends the
confirmation line in bold (`✅ **Extracted Value**`), so the edited text is
not the claim's `✅ Extracted Value` version. -/
theorem C5_ack_edit_counterexample :
    buttonHandler "copy_value|XY9".data "**Invoice Number:**\n`XY9`".data false =
      ([.answer "Value is ready to copy!".data,
        .editMsg "**Invoice Number:**\n`XY9`\n\n✅ **Extracted Value**".data none],
       false) ∧
    ("**Invoice Number:**\n`XY9`\n\n✅ **Extracted Value**".data : List Char) ≠
      "**Invoice Number:**\n`XY9`\n\n✅ Extracted Value".data := by
  exact ⟨by decide, by decide⟩

/-- C5 witness: a text with no leading bold header yields the empty header. -/
theorem C5_ack_edit_composition_witness :
    (¬ ∃ mid rest,
      ("plain".data : List Char) = '*' :: '*' :: (mid ++ '*' :: '*' :: rest) ∧
        '\n' ∉ mid) ∧
    headerOf "plain".data = [] := by
  have hno : ¬ ∃ mid rest,
      ("plain".data : List Char) = '*' :: '*' :: (mid ++ '*' :: '*' :: rest) ∧
        '\n' ∉ mid := by
    rintro ⟨mid, rest, h, -⟩
    rw [show ("plain".data : List Char) = 'p' :: 'l' :: 'a' :: 'i' :: 'n' :: [] from rfl]
      at h
    injection h with h1 _
    exact absurd h1 (by decide)
  exact ⟨hno, C5_ack_edit_composition.2 _ hno⟩

/-- C6 (amended): a payload containing a pipe whose action tag is not
`copy_value` is silently ignored — only the transient acknowledgment, no
edit, no send, no error; but a payload without any pipe raises an uncaught
index error (after the transient acknowledgment, still with no message
transition). -/
theorem C6_unknown_tag (payload msgText : List Char) (ef : Bool) :
    (∀ a v, pySplit1 payload = [a, v] → a ≠ "copy_value".data →
      buttonHandler payload msgText ef =
        ([.answer "Value is ready to copy!".data], false)) ∧
    ('|' ∉ payload →
      buttonHandler payload msgText ef =
        ([.answer "Value is ready to copy!".data], true)) := by
  constructor
  · intro a v hs ha
    rw [buttonHandler, hs]
    simp [ha]
  · intro hp
    have hs : pySplit1 payload = [payload] := by
      rw [pySplit1, splitFirst_eq_none payload hp]
    rw [buttonHandler, hs]

/-- C6 counterexample to the claim as stated: the pipe-less payload `oops`
has action tag `oops` (everything before the first pipe), which is not
`copy_value`, yet the handler raises an uncaught index error instead of
ignoring it silently. -/
theorem C6_unknown_tag_counterexample :
    buttonHandler "oops".data "x".data false =
      ([.answer "Value is ready to copy!".data], true) ∧
    ("oops".data : List Char) ≠ "copy_value".data := by
  exact ⟨by decide, by decide⟩

/-- C6 witness: the well-formed payload `zzz|1` with unknown tag `zzz` is
ignored with no transition and no error. -/
theorem C6_unknown_tag_witness :
    pySplit1 "zzz|1".data = ["zzz".data, "1".data] ∧
    buttonHandler "zzz|1".data "x".data false =
      ([.answer "Value is ready to copy!".data], false) :=
  ⟨by decide,
   (C6_unknown_tag "zzz|1".data "x".data false).1 "zzz".data "1".data
     (by decide) (by decide)⟩

/-- C7: for every value not containing a pipe, encoding it as the payload
`copy_value|<value>` and decoding by splitting on the first pipe recovers
exactly the original value. -/
theorem C7_payload_roundtrip (v : List Char) (_hv : '|' ∉ v) :
    pySplit1 ("copy_value|".data ++ v) = ["copy_value".data, v] := by
  have he : ("copy_value|".data : List Char) ++ v = "copy_value".data ++ '|' :: v := rfl
  rw [he, pySplit1, splitFirst_append_of _ _ (by decide)]

/-- C7 witness. -/
theorem C7_payload_roundtrip_witness :
    ('|' ∉ ("XY9".data : List Char)) ∧
    pySplit1 ("copy_value|".data ++ "XY9".data) = ["copy_value".data, "XY9".data] :=
  ⟨by decide, C7_payload_roundtrip "XY9".data (by decide)⟩

/-- C8: on a valid `copy_value` tap the handler never surfaces an error;
when the in-place edit fails it logs a warning and sends a brand-new
confirmation message containing the confirmation line and the value, and
when it succeeds it edits in place with the button removed — exactly one
confirmation by one of the two paths. -/
theorem C8_edit_fallback (payload msgText a v : List Char)
    (hs : pySplit1 payload = [a, v]) (ha : a = "copy_value".data) :
    (∀ ef, (buttonHandler payload msgText ef).2 = false) ∧
    buttonHandler payload msgText true =
      ([.answer "Value is ready to copy!".data, .logWarn,
        .sendMsg (confirmLine ++ '\n' :: bq :: (v ++ [bq]))], false) ∧
    buttonHandler payload msgText false =
      ([.answer "Value is ready to copy!".data,
        .editMsg (headerOf msgText ++ '\n' :: bq ::
          (v ++ bq :: '\n' :: '\n' :: confirmLine)) none], false) ∧
    (∀ ef, countConfirm (buttonHandler payload msgText ef).1 = 1) ∧
    List.IsInfix confirmLine (confirmLine ++ '\n' :: bq :: (v ++ [bq])) ∧
    List.IsInfix v (confirmLine ++ '\n' :: bq :: (v ++ [bq])) := by
  subst ha
  have h2 : buttonHandler payload msgText true =
      ([.answer "Value is ready to copy!".data, .logWarn,
        .sendMsg (confirmLine ++ '\n' :: bq :: (v ++ [bq]))], false) := by
    rw [buttonHandler, hs]
    simp
  have h3 : buttonHandler payload msgText false =
      ([.answer "Value is ready to copy!".data,
        .editMsg (headerOf msgText ++ '\n' :: bq ::
          (v ++ bq :: '\n' :: '\n' :: confirmLine)) none], false) := by
    rw [buttonHandler, hs]
    simp
  refine ⟨?_, h2, h3, ?_, ?_, ?_⟩
  · intro ef
    cases ef
    · rw [h3]
    · rw [h2]
  · intro ef
    cases ef
    · rw [h3]; rfl
    · rw [h2]; rfl
  · exact ⟨[], '\n' :: bq :: (v ++ [bq]), by simp⟩
  · exact ⟨confirmLine ++ ['\n', bq], [bq], by simp⟩

/-- C8 witness. -/
theorem C8_edit_fallback_witness :
    pySplit1 "copy_value|XY9".data = ["copy_value".data, "XY9".data] ∧
    (buttonHandler "copy_value|XY9".data "x".data true).2 = false :=
  ⟨by decide,
   (C8_edit_fallback "copy_value|XY9".data "x".data "copy_value".data "XY9".data
     (by decide) rfl).1 true⟩

end PPWSA
